import Mathlib

/-!
Verification of the `kn-editor-core` text buffer
(`src/packages/kn-editor-core/src/lib.rs`).

The crate exposes one type, `CoreText`, holding the document either as a
`ropey::Rope` (feature "rope" enabled) or as a flat `String` (feature
disabled).  Both storages represent the same logical content: a sequence of
Unicode scalar values.  We embed that content as `List Char` and model each
backend's operations separately:

* `RopeCore.*` embeds the `#[cfg(feature = "rope")]` branches.  Those
  delegate to `ropey`, whose documented contract is: `Rope::insert` panics
  if `char_idx > len_chars()`; `Rope::remove(start..end)` panics if
  `start > end` or `end > len_chars()`; `Rope::slice(start..end)` panics
  under the same condition.  A panic is modelled as an error value returned
  with the buffer unchanged (ropey validates bounds before mutating).

* `FlatCore.*` embeds the `#[cfg(not(feature = "rope"))]` branches.  The
  flat backend converts a character index to a UTF-8 byte offset with
  `byte_index`, which is `char_indices().nth(i)` falling back to the byte
  length of the whole string — i.e. it clamps every out-of-range character
  index to the end of the buffer.  We keep the byte arithmetic explicit
  (`utf8Len`, `byteIndex`) and express the resulting splices at character
  granularity, which is justified because `byteIndex` always lands on a
  character boundary (the byte length of a character prefix).

Mutating operations return the new content paired with `Option TextError`;
a `some` error mirrors a Rust panic raised before any mutation, with the
first component the untouched pre-call content.  `slice` does not mutate
and returns `Except TextError (List Char)`.
-/

/-- Failure conditions of the buffer operations.  `indexOutOfBounds` models
ropey's out-of-bounds panics; `invalidRange` models a range whose start
exceeds its end (the flat backend's `&s[sb..eb]` panic, and ropey's
start-after-end panic). -/
inductive TextError where
  | indexOutOfBounds : TextError
  | invalidRange : TextError
deriving DecidableEq, Repr

/-- Logical content of a `CoreText` buffer: the stored sequence of Unicode
scalar values, identical for both storage backends. -/
abbrev CoreText := List Char

/-- UTF-8 byte length of a character sequence (what `String::len` returns
on the flat backend's storage). -/
def utf8Len (s : List Char) : Nat :=
  (s.map Char.utf8Size).sum

namespace RopeCore

/-- Embeds `CoreText::new` / `CoreText::from_string` for the rope backend:
the logical content is the argument's scalar values. -/
def fromString (s : List Char) : CoreText := s

/-- Embeds `CoreText::len_chars`, rope branch: `self.rope.len_chars()`. -/
def lenChars (s : CoreText) : Nat := s.length

/-- Embeds `CoreText::insert`, rope branch: `self.rope.insert(char_idx, text)`.
Per ropey's contract this panics iff `char_idx > len_chars()`; otherwise it
splices `text` between the first `char_idx` characters and the rest. -/
def insert (s : CoreText) (i : Nat) (t : List Char) : CoreText × Option TextError :=
  if s.length < i then (s, some TextError.indexOutOfBounds)
  else (s.take i ++ t ++ s.drop i, none)

/-- Embeds `CoreText::delete`, rope branch:
`let end = char_idx.saturating_add(len_chars); self.rope.remove(char_idx..end)`.
In the embedding `Nat` addition cannot overflow, so `saturating_add` is `+`.
Per ropey's contract `remove(start..end)` panics iff `start > end` (impossible
here, since `end = i + n ≥ i`) or `end > len_chars()`; otherwise it removes
the character range `[i, i+n)`. -/
def delete (s : CoreText) (i n : Nat) : CoreText × Option TextError :=
  if s.length < i + n then (s, some TextError.indexOutOfBounds)
  else (s.take i ++ s.drop (i + n), none)

/-- Embeds `CoreText::slice`, rope branch:
`self.rope.slice(start_char..end_char).to_string()`.  Per ropey's contract
this panics iff `start > end` or `end > len_chars()`; otherwise it copies the
character range `[start, end)`, which is `(s.take j).drop i`. -/
def slice (s : CoreText) (i j : Nat) : Except TextError (List Char) :=
  if j < i then Except.error TextError.invalidRange
  else if s.length < j then Except.error TextError.indexOutOfBounds
  else Except.ok ((s.take j).drop i)

end RopeCore

namespace FlatCore

/-- Embeds `CoreText::new` / `CoreText::from_string` for the flat backend. -/
def fromString (s : List Char) : CoreText := s

/-- Embeds `CoreText::len_chars`, flat branch: `self.rope.chars().count()`. -/
def lenChars (s : CoreText) : Nat := s.length

/-- Embeds `CoreText::byte_index`:
`self.rope.char_indices().nth(char_idx).map(|(i, _)| i).unwrap_or(self.rope.len())`.
`char_indices().nth(i)` yields the byte offset of the `i`-th character —
the UTF-8 length of the first `i` characters — when `i < length`, and the
fallback `unwrap_or` yields the full byte length otherwise.  Both cases are
`utf8Len (s.take i)`, since `List.take` clamps at the length. -/
def byteIndex (s : CoreText) (i : Nat) : Nat :=
  utf8Len (s.take i)

/-- Embeds `CoreText::insert`, flat branch: the string is `split_at` the byte
offset `byte_index(char_idx)` into `head` and `tail`, and the new content is
`head ++ text ++ tail`.  The byte offset is the UTF-8 length of the first
`min char_idx length` characters, so the byte-level split decodes to the
character-level split `(s.take i, s.drop i)` (both clamp past the end).
No error is possible: `byteIndex` is total and always a character boundary,
so an out-of-range `char_idx` silently appends at the end. -/
def insert (s : CoreText) (i : Nat) (t : List Char) : CoreText × Option TextError :=
  (s.take i ++ t ++ s.drop i, none)

/-- Embeds `CoreText::delete`, flat branch:
`replace_range(byte_index(char_idx)..byte_index(char_idx + len_chars), "")`.
The two byte offsets are character boundaries at character positions
`min i length` and `min (i+n) length`, and `byteIndex` is monotone, so
`replace_range` never panics and removes exactly the character range
`[min i length, min (i+n) length)` — that is, the content becomes
`s.take i ++ s.drop (i + n)` (both clamp).  An out-of-range start is a
silent no-op. -/
def delete (s : CoreText) (i n : Nat) : CoreText × Option TextError :=
  (s.take i ++ s.drop (i + n), none)

/-- Embeds `CoreText::slice`, flat branch:
`self.rope[byte_index(start)..byte_index(end)].to_string()`.  The byte
indexing panics iff the start offset exceeds the end offset (both offsets
are in-range character boundaries by construction); otherwise the byte
range decodes to the character range `[min i length, min j length)`,
which is `(s.take j).drop i`. -/
def slice (s : CoreText) (i j : Nat) : Except TextError (List Char) :=
  if byteIndex s j < byteIndex s i then Except.error TextError.invalidRange
  else Except.ok ((s.take j).drop i)

end FlatCore

/-- Appending concatenates UTF-8 byte lengths. -/
theorem utf8Len_append (a b : List Char) : utf8Len (a ++ b) = utf8Len a + utf8Len b := by
  simp [utf8Len]

/-- A nonempty character sequence occupies at least one byte (every scalar
value has UTF-8 width at least 1). -/
theorem utf8Len_pos {l : List Char} (h : l ≠ []) : 0 < utf8Len l := by
  cases l with
  | nil => exact absurd rfl h
  | cons c t =>
    have := Char.utf8Size_pos c
    simp [utf8Len]
    omega

/-- `List.take` clamps its argument at the length. -/
theorem take_min (s : List Char) (i : Nat) : s.take i = s.take (min i s.length) := by
  rcases Nat.le_total i s.length with h | h
  · rw [Nat.min_eq_left h]
  · rw [Nat.min_eq_right h, List.take_of_length_le h, List.take_length]

/-- `byteIndex` is monotone in the character index. -/
theorem byteIndex_mono (s : CoreText) {i j : Nat} (h : i ≤ j) :
    FlatCore.byteIndex s i ≤ FlatCore.byteIndex s j := by
  have hj : s.take j = s.take i ++ (s.drop i).take (j - i) := by
    rw [← List.take_add]
    congr 1
    omega
  unfold FlatCore.byteIndex
  rw [hj, utf8Len_append]
  omega

/-- `byteIndex` is strictly monotone below the clamp: a strictly larger
effective character position maps to a strictly larger byte offset. -/
theorem byteIndex_strict_mono (s : CoreText) {i j : Nat}
    (h : min i s.length < min j s.length) :
    FlatCore.byteIndex s i < FlatCore.byteIndex s j := by
  unfold FlatCore.byteIndex
  rw [take_min s i, take_min s j]
  have hj : s.take (min j s.length) =
      s.take (min i s.length) ++ (s.drop (min i s.length)).take (min j s.length - min i s.length) := by
    rw [← List.take_add]
    congr 1
    omega
  rw [hj, utf8Len_append]
  have hne : (s.drop (min i s.length)).take (min j s.length - min i s.length) ≠ [] := by
    have hlen : ((s.drop (min i s.length)).take (min j s.length - min i s.length)).length
        = min (min j s.length - min i s.length) (s.length - min i s.length) := by
      simp [List.length_take, List.length_drop]
    intro hnil
    rw [hnil] at hlen
    simp at hlen
    omega
  have := utf8Len_pos hne
  omega

/-- Exact characterisation of byte-offset comparison: `byteIndex` compares
two character indices exactly as their clamps to the buffer length compare. -/
theorem byteIndex_le_iff (s : CoreText) (i j : Nat) :
    FlatCore.byteIndex s i ≤ FlatCore.byteIndex s j ↔ min i s.length ≤ min j s.length := by
  constructor
  · intro h
    by_contra hc
    have := byteIndex_strict_mono s (Nat.lt_of_not_le hc)
    omega
  · intro h
    unfold FlatCore.byteIndex
    rw [take_min s i, take_min s j]
    have hj : s.take (min j s.length) =
        s.take (min i s.length) ++ (s.drop (min i s.length)).take (min j s.length - min i s.length) := by
      rw [← List.take_add]
      congr 1
      omega
    rw [hj, utf8Len_append]
    omega

/-- Splicing `t` into `s` at a valid position `p` and then removing the
`t.length` characters starting at `p` restores `s`. -/
theorem splice_take_drop (s t : List Char) (p : Nat) (h : p ≤ s.length) :
    (s.take p ++ t ++ s.drop p).take p ++ (s.take p ++ t ++ s.drop p).drop (p + t.length) = s := by
  have hlen : (s.take p).length = p := by
    simp [List.length_take]
    omega
  have h1 : (s.take p ++ t ++ s.drop p).take p = s.take p := by
    rw [List.append_assoc]
    exact List.take_left' hlen
  have h2 : (s.take p ++ t ++ s.drop p).drop (p + t.length) = s.drop p := by
    have hlen2 : (s.take p ++ t).length = p + t.length := by
      simp [hlen]
    exact List.drop_left' hlen2
  rw [h1, h2, List.take_append_drop]


/-- C1 (counterexample): the claim asserts that `insert(at, text)` with
`at > length_in_characters()` fails with IndexOutOfBounds in both backends.
In the flat backend, `insert(3, "x")` on the length-2 buffer `"ab"` does not
fail: `byte_index` clamps the index to the end and the call silently appends,
yielding `"abx"` with no error. -/
theorem C1_counterexample :
    FlatCore.insert ['a', 'b'] 3 ['x'] = (['a', 'b', 'x'], none) ∧
    (FlatCore.insert ['a', 'b'] 3 ['x']).2 ≠ some TextError.indexOutOfBounds := by
  decide

/-- C1 (amended): `insert(length_in_characters(), text)` succeeds and appends
in both backends; for `at > length_in_characters()` the rope backend fails
with IndexOutOfBounds, while the flat backend does not fail — it silently
clamps the position and appends `text` at the end. -/
theorem C1_insert_boundary (s : CoreText) (t : List Char) (i : Nat) :
    RopeCore.insert s (RopeCore.lenChars s) t = (s ++ t, none) ∧
    FlatCore.insert s (FlatCore.lenChars s) t = (s ++ t, none) ∧
    (RopeCore.lenChars s < i →
      RopeCore.insert s i t = (s, some TextError.indexOutOfBounds) ∧
      FlatCore.insert s i t = (s ++ t, none)) := by
  refine ⟨?_, ?_, ?_⟩
  · simp [RopeCore.insert, RopeCore.lenChars, List.take_length, List.drop_length]
  · simp [FlatCore.insert, FlatCore.lenChars, List.take_length, List.drop_length]
  · intro h
    constructor
    · simp [RopeCore.insert, RopeCore.lenChars] at h ⊢
      omega
    · simp [FlatCore.insert, FlatCore.lenChars] at h ⊢
      rw [List.take_of_length_le (Nat.le_of_lt h), List.drop_eq_nil_of_le (Nat.le_of_lt h)]
      simp

/-- C1 (witness): on the length-1 buffer `"a"`, `insert(2, "b")` fails with
IndexOutOfBounds in the rope backend and silently appends in the flat one. -/
theorem C1_insert_boundary_witness :
    RopeCore.insert ['a'] 2 ['b'] = (['a'], some TextError.indexOutOfBounds) ∧
    FlatCore.insert ['a'] 2 ['b'] = (['a', 'b'], none) :=
  (C1_insert_boundary ['a'] ['b'] 2).2.2 (by decide)

/-- C2 (counterexample): the claim asserts that for both backends
`delete(at, count)` with `at > length_in_characters()` fails with
IndexOutOfBounds, and that `delete(0, huge_count)` with
`huge_count ≥ length` empties the buffer without failing.  In the flat
backend `delete(5, 1)` on the length-3 buffer `"abc"` is a silent no-op
(no error); in the rope backend `delete(0, 2)` on the length-1 buffer
`"a"` fails with IndexOutOfBounds instead of emptying the buffer. -/
theorem C2_counterexample :
    FlatCore.delete ['a', 'b', 'c'] 5 1 = (['a', 'b', 'c'], none) ∧
    RopeCore.delete ['a'] 0 2 = (['a'], some TextError.indexOutOfBounds) := by
  decide

/-- C2 (amended): the two backends validate `delete(at, count)` differently.
The flat backend never fails: it removes exactly the clamped range
`[min(at, len), min(at+count, len))` — in particular `delete(0, huge)` with
`huge ≥ length` empties the buffer, and `at > length` is a silent no-op
rather than an IndexOutOfBounds failure.  The rope backend does not saturate
`count`: `delete(at, count)` succeeds, removing exactly `[at, at+count)`,
iff `at + count ≤ length`, and fails with IndexOutOfBounds whenever
`at + count > length` — so an `at` beyond the length fails as the claim
says, but `delete(0, huge_count)` with `huge_count > length` also fails
instead of emptying the buffer. -/
theorem C2_delete_asymmetry (s : CoreText) (i n : Nat) :
    (FlatCore.delete s i n).2 = none ∧
    (FlatCore.delete s i n).1 = s.take i ++ s.drop (i + n) ∧
    (FlatCore.lenChars s ≤ i → FlatCore.delete s i n = (s, none)) ∧
    (FlatCore.lenChars s ≤ n → FlatCore.delete s 0 n = ([], none)) ∧
    RopeCore.delete s i n =
      (if RopeCore.lenChars s < i + n then (s, some TextError.indexOutOfBounds)
       else (s.take i ++ s.drop (i + n), none)) ∧
    (RopeCore.lenChars s < n → (RopeCore.delete s 0 n).2 = some TextError.indexOutOfBounds) := by
  refine ⟨rfl, rfl, ?_, ?_, ?_, ?_⟩
  · intro h
    simp [FlatCore.delete, FlatCore.lenChars] at h ⊢
    rw [List.take_of_length_le h, List.drop_eq_nil_of_le (by omega)]
    simp
  · intro h
    simp [FlatCore.delete, FlatCore.lenChars] at h ⊢
    omega
  · rfl
  · intro h
    simp [RopeCore.lenChars] at h
    unfold RopeCore.delete
    rw [if_pos (by omega)]

/-- C2 (witness): on the length-1 buffer `"a"`, flat `delete(2, 2)` is a
silent no-op, flat `delete(0, 2)` empties the buffer, and rope
`delete(0, 2)` fails with IndexOutOfBounds. -/
theorem C2_delete_asymmetry_witness :
    FlatCore.delete ['a'] 2 2 = (['a'], none) ∧
    FlatCore.delete ['a'] 0 2 = ([], none) ∧
    (RopeCore.delete ['a'] 0 2).2 = some TextError.indexOutOfBounds :=
  ⟨(C2_delete_asymmetry ['a'] 2 2).2.2.1 (by decide),
   (C2_delete_asymmetry ['a'] 2 2).2.2.2.1 (by decide),
   (C2_delete_asymmetry ['a'] 2 2).2.2.2.2.2 (by decide)⟩

/-- Success predicate for a slice call: it returns a copied text rather than a
failure condition. -/
def sliceOk (r : Except TextError (List Char)) : Prop :=
  ∃ v, r = Except.ok v

/-- C3 (counterexample): the claim asserts that `slice(start, end)` fails
whenever either index exceeds `length_in_characters()`, in both backends.
In the flat backend, `slice(1, 10)` on the length-3 buffer `"abc"` does not
fail: both byte offsets are clamped to the end and it returns `"bc"`. -/
theorem C3_counterexample :
    FlatCore.slice ['a', 'b', 'c'] 1 10 = Except.ok ['b', 'c'] := rfl

/-- C3 (amended): the rope backend behaves as the claim states — `slice`
succeeds iff `start ≤ end ≤ length_in_characters()`, returning the character
range `[start, end)`, and `slice(start, start)` is empty for in-range
`start`.  The flat backend instead clamps both indices to the length: it
succeeds iff `min(start, len) ≤ min(end, len)` (so indices beyond the length
never fail by themselves), returning the clamped range, and
`slice(start, start)` is empty for every `start`, even out of range. -/
theorem C3_slice_bounds (s : CoreText) (i j : Nat) :
    (sliceOk (RopeCore.slice s i j) ↔ i ≤ j ∧ j ≤ RopeCore.lenChars s) ∧
    (i ≤ j → j ≤ RopeCore.lenChars s →
      RopeCore.slice s i j = Except.ok ((s.take j).drop i)) ∧
    (i ≤ RopeCore.lenChars s → RopeCore.slice s i i = Except.ok []) ∧
    (sliceOk (FlatCore.slice s i j) ↔
      min i (FlatCore.lenChars s) ≤ min j (FlatCore.lenChars s)) ∧
    (min i (FlatCore.lenChars s) ≤ min j (FlatCore.lenChars s) →
      FlatCore.slice s i j = Except.ok ((s.take j).drop i)) ∧
    FlatCore.slice s i i = Except.ok [] := by
  refine ⟨?_, ?_, ?_, ?_, ?_, ?_⟩
  · unfold RopeCore.slice RopeCore.lenChars sliceOk
    split_ifs with h1 h2
    · exact ⟨fun ⟨v, hv⟩ => hv.elim, fun hc => absurd hc (by omega)⟩
    · exact ⟨fun ⟨v, hv⟩ => hv.elim, fun hc => absurd hc (by omega)⟩
    · exact ⟨fun _ => by omega, fun _ => ⟨_, rfl⟩⟩
  · intro h1 h2
    simp [RopeCore.lenChars] at h2
    unfold RopeCore.slice
    rw [if_neg (by omega), if_neg (by omega)]
  · intro h
    simp [RopeCore.lenChars] at h
    unfold RopeCore.slice
    rw [if_neg (by omega), if_neg (by omega)]
    simp [List.length_take]
  · unfold FlatCore.slice FlatCore.lenChars sliceOk
    split_ifs with h
    · refine ⟨fun ⟨v, hv⟩ => hv.elim, fun hc => ?_⟩
      exact absurd ((byteIndex_le_iff s i j).mpr hc) (by omega)
    · refine ⟨fun _ => (byteIndex_le_iff s i j).mp (by omega), fun _ => ⟨_, rfl⟩⟩
  · intro h
    simp [FlatCore.lenChars] at h
    have hmin : min i s.length ≤ min j s.length := by omega
    have hle := (byteIndex_le_iff s i j).mpr hmin
    unfold FlatCore.slice
    rw [if_neg (by omega)]
  · unfold FlatCore.slice
    rw [if_neg (Nat.lt_irrefl _)]
    simp [List.length_take]

/-- C3 (witness): on the buffer `"a"`, rope `slice(0, 1)` returns `"a"`,
rope `slice(0, 0)` returns the empty text, and flat `slice(0, 1)` returns
`"a"`. -/
theorem C3_slice_bounds_witness :
    RopeCore.slice ['a'] 0 1 = Except.ok ['a'] ∧
    RopeCore.slice ['a'] 0 0 = Except.ok [] ∧
    FlatCore.slice ['a'] 0 1 = Except.ok ['a'] := by
  have h := C3_slice_bounds ['a'] 0 1
  exact ⟨h.2.1 (by decide) (by decide), (C3_slice_bounds ['a'] 0 1).2.2.1 (by decide),
    h.2.2.2.2.1 (by decide)⟩

/-- C4 (confirmed): both backends measure in Unicode scalar values — the
length of a buffer constructed from any text equals its scalar-value count,
independent of UTF-8 byte count.  Concretely, `from_text("café")` has
`length_in_characters() = 4` in both backends even though the content
occupies 5 storage units (`é` is two bytes), and `slice(3, 4)` returns
exactly `"é"` in both backends. -/
theorem C4_char_granularity (s : CoreText) :
    FlatCore.lenChars (FlatCore.fromString s) = s.length ∧
    RopeCore.lenChars (RopeCore.fromString s) = s.length ∧
    FlatCore.lenChars (FlatCore.fromString ['c', 'a', 'f', 'é']) = 4 ∧
    RopeCore.lenChars (RopeCore.fromString ['c', 'a', 'f', 'é']) = 4 ∧
    utf8Len ['c', 'a', 'f', 'é'] = 5 ∧
    FlatCore.slice ['c', 'a', 'f', 'é'] 3 4 = Except.ok ['é'] ∧
    RopeCore.slice ['c', 'a', 'f', 'é'] 3 4 = Except.ok ['é'] :=
  ⟨rfl, rfl, rfl, rfl, rfl, rfl, rfl⟩

/-- C5 (confirmed): for every buffer, every `at ≤ length_in_characters()`
and every text, both backends' `insert(at, text)` succeed and produce
`head ++ text ++ tail` where `head` is the first `at` characters, and the
new length is the prior length plus the scalar-value count of `text`. -/
theorem C5_insert_splice (s : CoreText) (i : Nat) (t : List Char)
    (h : i ≤ RopeCore.lenChars s) :
    FlatCore.insert s i t = (s.take i ++ t ++ s.drop i, none) ∧
    RopeCore.insert s i t = (s.take i ++ t ++ s.drop i, none) ∧
    FlatCore.lenChars (FlatCore.insert s i t).1 = FlatCore.lenChars s + t.length ∧
    RopeCore.lenChars (RopeCore.insert s i t).1 = RopeCore.lenChars s + t.length := by
  simp [RopeCore.lenChars] at h
  refine ⟨rfl, ?_, ?_, ?_⟩
  · unfold RopeCore.insert
    rw [if_neg (by omega)]
  · simp [FlatCore.insert, FlatCore.lenChars, List.length_take, List.length_drop]
    omega
  · unfold RopeCore.insert
    rw [if_neg (by omega)]
    simp [RopeCore.lenChars, List.length_take, List.length_drop]
    omega

/-- C5 (witness): inserting `"x"` at position 1 of `"ab"` yields `"axb"`
of length 3 in both backends. -/
theorem C5_insert_splice_witness :
    FlatCore.insert ['a', 'b'] 1 ['x'] = (['a', 'x', 'b'], none) ∧
    RopeCore.insert ['a', 'b'] 1 ['x'] = (['a', 'x', 'b'], none) ∧
    FlatCore.lenChars (FlatCore.insert ['a', 'b'] 1 ['x']).1 = 3 ∧
    RopeCore.lenChars (RopeCore.insert ['a', 'b'] 1 ['x']).1 = 3 := by
  have h := C5_insert_splice ['a', 'b'] 1 ['x'] (by decide)
  exact ⟨h.1, h.2.1, h.2.2.1, h.2.2.2⟩

/-- C6 (confirmed): in both backends, `slice(0, length_in_characters())`
succeeds and returns the full current content. -/
theorem C6_slice_roundtrip (s : CoreText) :
    FlatCore.slice s 0 (FlatCore.lenChars s) = Except.ok s ∧
    RopeCore.slice s 0 (RopeCore.lenChars s) = Except.ok s := by
  constructor
  · have h0 : FlatCore.byteIndex s 0 = 0 := rfl
    unfold FlatCore.slice
    rw [if_neg (by simp [h0])]
    simp [FlatCore.lenChars]
  · unfold RopeCore.slice RopeCore.lenChars
    rw [if_neg (by omega), if_neg (by omega)]
    simp

/-- C7 (confirmed): in both backends, for every buffer, valid position `p`
and text, `insert(p, text)` followed by `delete(p, |text|)` restores the
original content (and hence the original length). -/
theorem C7_delete_inverts_insert (s : CoreText) (p : Nat) (t : List Char)
    (h : p ≤ RopeCore.lenChars s) :
    (RopeCore.insert s p t).2 = none ∧
    RopeCore.delete (RopeCore.insert s p t).1 p t.length = (s, none) ∧
    FlatCore.delete (FlatCore.insert s p t).1 p t.length = (s, none) := by
  simp [RopeCore.lenChars] at h
  have hins : RopeCore.insert s p t = (s.take p ++ t ++ s.drop p, none) := by
    unfold RopeCore.insert
    rw [if_neg (by omega)]
  have hlen : (s.take p ++ t ++ s.drop p).length = s.length + t.length := by
    simp [List.length_take, List.length_drop]
    omega
  refine ⟨by rw [hins], ?_, ?_⟩
  · rw [hins]
    show RopeCore.delete (s.take p ++ t ++ s.drop p) p t.length = (s, none)
    unfold RopeCore.delete
    rw [if_neg (by rw [hlen]; omega)]
    simp only [Prod.mk.injEq]
    exact ⟨splice_take_drop s t p h, trivial⟩
  · show FlatCore.delete (s.take p ++ t ++ s.drop p) p t.length = (s, none)
    unfold FlatCore.delete
    simp only [Prod.mk.injEq]
    exact ⟨splice_take_drop s t p h, trivial⟩

/-- C7 (witness): on `"ab"`, inserting `"xy"` at position 1 and then
deleting 2 characters at position 1 restores `"ab"` in both backends. -/
theorem C7_delete_inverts_insert_witness :
    (RopeCore.insert ['a', 'b'] 1 ['x', 'y']).2 = none ∧
    RopeCore.delete (RopeCore.insert ['a', 'b'] 1 ['x', 'y']).1 1 2 = (['a', 'b'], none) ∧
    FlatCore.delete (FlatCore.insert ['a', 'b'] 1 ['x', 'y']).1 1 2 = (['a', 'b'], none) :=
  C7_delete_inverts_insert ['a', 'b'] 1 ['x', 'y'] (by decide)

/-- C8 (confirmed): every insert or delete call is atomic in both backends.
In the rope backend the bounds check precedes any mutation, so the call
either returns the fully spliced content with no error or fails leaving the
content exactly as it was; in the flat backend insert and delete can never
fail at all.  No partially applied splice is ever observable. -/
theorem C8_atomic_mutation (s : CoreText) (i n : Nat) (t : List Char) :
    (RopeCore.insert s i t = (s.take i ++ t ++ s.drop i, none) ∨
      RopeCore.insert s i t = (s, some TextError.indexOutOfBounds)) ∧
    (RopeCore.delete s i n = (s.take i ++ s.drop (i + n), none) ∨
      RopeCore.delete s i n = (s, some TextError.indexOutOfBounds)) ∧
    (FlatCore.insert s i t).2 = none ∧
    (FlatCore.delete s i n).2 = none := by
  refine ⟨?_, ?_, rfl, rfl⟩
  · unfold RopeCore.insert
    split_ifs with h
    · exact Or.inr rfl
    · exact Or.inl rfl
  · unfold RopeCore.delete
    split_ifs with h
    · exact Or.inr rfl
    · exact Or.inl rfl

/-- C9 (confirmed): in the flat backend, `byte_index` is total and clamping:
its result is always a UTF-8 character-boundary byte offset (the byte length
of a character prefix of the buffer), and any character index at or beyond
the character count maps to the full byte length.  Consequently flat
`insert` with an out-of-range index silently appends at the end, and flat
`delete` with an out-of-range start is a silent no-op — no error either
way. -/
theorem C9_flat_byte_index_clamps (s : CoreText) (i n : Nat) (t : List Char) :
    (∃ k, k ≤ s.length ∧ FlatCore.byteIndex s i = utf8Len (s.take k)) ∧
    (FlatCore.lenChars s ≤ i → FlatCore.byteIndex s i = utf8Len s) ∧
    (FlatCore.lenChars s ≤ i → FlatCore.insert s i t = (s ++ t, none)) ∧
    (FlatCore.lenChars s ≤ i → FlatCore.delete s i n = (s, none)) := by
  refine ⟨⟨min i s.length, Nat.min_le_right i s.length, ?_⟩, ?_, ?_, ?_⟩
  · unfold FlatCore.byteIndex
    rw [take_min]
  · intro h
    simp [FlatCore.lenChars] at h
    unfold FlatCore.byteIndex
    rw [List.take_of_length_le h]
  · intro h
    simp [FlatCore.lenChars] at h
    unfold FlatCore.insert
    rw [List.take_of_length_le h, List.drop_eq_nil_of_le h]
    simp
  · intro h
    simp [FlatCore.lenChars] at h
    unfold FlatCore.delete
    rw [List.take_of_length_le h,
      List.drop_eq_nil_of_le (Nat.le_trans h (Nat.le_add_right i n))]
    simp

/-- C9 (witness): on the length-2 buffer `"ab"`, `byte_index(5)` is the full
byte length, flat `insert(5, "x")` appends yielding `"abx"` with no error,
and flat `delete(5, 1)` is a no-op with no error. -/
theorem C9_flat_byte_index_clamps_witness :
    FlatCore.byteIndex ['a', 'b'] 5 = utf8Len ['a', 'b'] ∧
    FlatCore.insert ['a', 'b'] 5 ['x'] = (['a', 'b', 'x'], none) ∧
    FlatCore.delete ['a', 'b'] 5 1 = (['a', 'b'], none) := by
  have h := C9_flat_byte_index_clamps ['a', 'b'] 5 1 ['x']
  exact ⟨h.2.1 (by decide), h.2.2.1 (by decide), h.2.2.2 (by decide)⟩

/-- C10 (confirmed): inserting the empty text at any valid position leaves
the content (and hence the length) unchanged, in both backends. -/
theorem C10_insert_empty_identity (s : CoreText) (i : Nat)
    (h : i ≤ FlatCore.lenChars s) :
    FlatCore.insert s i [] = (s, none) ∧ RopeCore.insert s i [] = (s, none) := by
  simp [FlatCore.lenChars] at h
  constructor
  · unfold FlatCore.insert
    simp [List.take_append_drop]
  · unfold RopeCore.insert
    rw [if_neg (by omega)]
    simp [List.take_append_drop]

/-- C10 (witness): inserting the empty text at position 1 of `"a"` leaves
the buffer unchanged in both backends. -/
theorem C10_insert_empty_identity_witness :
    FlatCore.insert ['a'] 1 [] = (['a'], none) ∧
    RopeCore.insert ['a'] 1 [] = (['a'], none) :=
  C10_insert_empty_identity ['a'] 1 (by decide)
